import Mathlib

/-!
Verification development for the Telugu transcript-recording tool.

The repository is a small browser app: an intake form turns pasted lines of
text into pending recording tasks (src/components/TranscriptInput.tsx), a
recorder captures audio per task (src/components/Recorder.tsx), and the main
page confirms recordings, uploads them, and reconciles local state with a
realtime change feed (src/app/page.tsx).

The embedding below is shallow: the pure computations are translated to Lean
functions over `List Char`/`String`, the backend (database rows, object
storage) is explicit state, and the asynchronous handlers are modelled as
atomic steps of the single-threaded event loop, each handler application
being one turn.
-/

namespace Telugu

/-! ### Intake flow: JS string primitives used by TranscriptInput.handleSubmit

`line.trim()` removes leading and trailing whitespace; we model the ASCII
whitespace characters via `Char.isWhitespace` (space, tab, CR, LF).
`str.split('\n')` splits at every newline, keeping empty segments. -/

/-- Remove leading whitespace characters. -/
def trimL (l : List Char) : List Char := l.dropWhile Char.isWhitespace

/-- Remove trailing whitespace characters. -/
def trimR (l : List Char) : List Char := (l.reverse.dropWhile Char.isWhitespace).reverse

/-- JS `String.prototype.trim`: remove leading and trailing whitespace. -/
def trim (l : List Char) : List Char := trimR (trimL l)

/-- Prepend a character to the first chunk of a chunk list. -/
def consHead (c : Char) : List (List Char) → List (List Char)
  | [] => [[c]]
  | h :: t => (c :: h) :: t

/-- JS `str.split('\n')` on the underlying character list: splits at every
newline character and keeps empty segments (so it never returns `[]`). -/
def splitNl : List Char → List (List Char)
  | [] => [[]]
  | c :: cs => if c = '\n' then [] :: splitNl cs else consHead c (splitNl cs)

theorem consHead_ne_nil (c : Char) (l : List (List Char)) : consHead c l ≠ [] := by
  cases l <;> simp [consHead]

theorem splitNl_ne_nil (l : List Char) : splitNl l ≠ [] := by
  cases l with
  | nil => simp [splitNl]
  | cons c cs =>
    simp only [splitNl]
    split
    · simp
    · exact consHead_ne_nil c (splitNl cs)

theorem trimL_cons (c : Char) (cs : List Char) :
    trimL (c :: cs) = if c.isWhitespace then trimL cs else c :: cs := by
  simp only [trimL, List.dropWhile_cons]

theorem trimL_nil : trimL [] = [] := rfl

theorem trimR_nil : trimR [] = [] := rfl

theorem trimR_append_single (xs : List Char) (c : Char) :
    trimR (xs ++ [c]) = if c.isWhitespace then trimR xs else xs ++ [c] := by
  by_cases hc : c.isWhitespace
  · simp [trimR, List.dropWhile_cons, hc]
  · simp [trimR, List.dropWhile_cons, hc]

theorem trim_cons_ws {c : Char} (hc : c.isWhitespace) (cs : List Char) :
    trim (c :: cs) = trim cs := by
  simp [trim, trimL_cons, hc]

theorem trim_append_ws {c : Char} (hc : c.isWhitespace) (xs : List Char) :
    trim (xs ++ [c]) = trim xs := by
  have hsplit : trimL (xs ++ [c]) =
      if (trimL xs).isEmpty then trimL [c] else trimL xs ++ [c] := by
    simp only [trimL]
    exact List.dropWhile_append
  by_cases h : (trimL xs).isEmpty
  · have h0 : trimL xs = [] := by simpa [List.isEmpty_iff] using h
    have h1 : trimL [c] = [] := by simp [trimL, List.dropWhile_cons, hc]
    simp [trim, hsplit, h, h0, h1]
  · have hx : trimL (xs ++ [c]) = trimL xs ++ [c] := by simp [hsplit, h]
    simp [trim, hx, trimR_append_single, hc]

theorem consHead_append (c : Char) {A : List (List Char)} (hA : A ≠ [])
    (B : List (List Char)) : consHead c (A ++ B) = consHead c A ++ B := by
  cases A with
  | nil => exact absurd rfl hA
  | cons a as => simp [consHead]

/-- Appending a newline at the end appends one empty line. -/
theorem splitNl_append_nl (xs : List Char) :
    splitNl (xs ++ ['\n']) = splitNl xs ++ [[]] := by
  induction xs with
  | nil => simp [splitNl, consHead]
  | cons c cs ih =>
    rw [List.cons_append]
    by_cases hc : c = '\n'
    · simp [splitNl, hc, ih]
    · simp only [splitNl, if_neg hc, ih]
      rw [consHead_append c (splitNl_ne_nil cs)]

/-- Append one character to the last chunk of a chunk list. -/
def appLast : List (List Char) → Char → List (List Char)
  | [], c => [[c]]
  | [a], c => [a ++ [c]]
  | a :: b :: rest, c => a :: appLast (b :: rest) c

theorem appLast_cons (a : List Char) {B : List (List Char)} (hB : B ≠ [])
    (c : Char) : appLast (a :: B) c = a :: appLast B c := by
  cases B with
  | nil => exact absurd rfl hB
  | cons b bs => rfl

theorem consHead_appLast (x : Char) (A : List (List Char)) (c : Char) :
    consHead x (appLast A c) = appLast (consHead x A) c := by
  cases A with
  | nil => rfl
  | cons a as =>
    cases as with
    | nil => rfl
    | cons b bs => rfl

/-- Appending a non-newline character extends the last line. -/
theorem splitNl_append_single {c : Char} (hc : ¬ c = '\n') (xs : List Char) :
    splitNl (xs ++ [c]) = appLast (splitNl xs) c := by
  induction xs with
  | nil => simp [splitNl, hc, consHead, appLast]
  | cons x xs ih =>
    rw [List.cons_append]
    by_cases hx : x = '\n'
    · simp only [splitNl, if_pos hx, ih]
      rw [appLast_cons [] (splitNl_ne_nil xs)]
    · simp only [splitNl, if_neg hx, ih]
      exact consHead_appLast x (splitNl xs) c

/-- Spec-side definition, following the spec text: the lines of the input,
each trimmed, with blank and whitespace-only lines excluded. -/
def specLines (input : List Char) : List (List Char) :=
  ((splitNl input).map trim).filter (fun l => decide (0 < l.length))

/-- A leading whitespace character does not change the non-empty trimmed lines. -/
theorem specLines_cons_ws {c : Char} (hc : c.isWhitespace) (cs : List Char) :
    specLines (c :: cs) = specLines cs := by
  by_cases hn : c = '\n'
  · simp [specLines, splitNl, hn, trim, trimL_nil, trimR_nil]
  · simp only [specLines, splitNl, if_neg hn]
    cases h : splitNl cs with
    | nil => exact absurd h (splitNl_ne_nil cs)
    | cons u us => simp [consHead, trim_cons_ws hc]

/-- A trailing whitespace character does not change the non-empty trimmed lines. -/
theorem specLines_append_ws {c : Char} (hc : c.isWhitespace) (xs : List Char) :
    specLines (xs ++ [c]) = specLines xs := by
  by_cases hn : c = '\n'
  · subst hn
    simp [specLines, splitNl_append_nl, trim, trimL_nil, trimR_nil]
  · simp only [specLines, splitNl_append_single hn]
    generalize splitNl xs = A
    induction A with
    | nil =>
      have h1 : trim [c] = [] := by
        simp [trim, trimL, List.dropWhile_cons, hc, trimR_nil]
      simp [appLast, h1]
    | cons a rest ih =>
      cases rest with
      | nil => simp [appLast, trim_append_ws hc]
      | cons b bs =>
        rw [appLast_cons a (by simp) c]
        simp only [List.map_cons, List.filter_cons]
        rw [show ((appLast (b :: bs) c).map trim).filter (fun l => decide (0 < l.length)) =
            ((b :: bs).map trim).filter (fun l => decide (0 < l.length)) from ih]
        simp only [List.map_cons, List.filter_cons]

theorem specLines_trimL (l : List Char) : specLines (trimL l) = specLines l := by
  induction l with
  | nil => rfl
  | cons c cs ih =>
    by_cases hc : c.isWhitespace
    · rw [trimL_cons, if_pos hc, ih, specLines_cons_ws hc]
    · rw [trimL_cons, if_neg hc]

theorem specLines_trimR (l : List Char) : specLines (trimR l) = specLines l := by
  induction l using List.reverseRecOn with
  | nil => rfl
  | append_singleton xs c ih =>
    by_cases hc : c.isWhitespace
    · rw [trimR_append_single, if_pos hc, ih, specLines_append_ws hc]
    · rw [trimR_append_single, if_neg hc]

/-- Pre-trimming the whole input does not change the non-empty trimmed lines:
the line computation of handleSubmit refines the spec-side description. -/
theorem specLines_trim (l : List Char) : specLines (trim l) = specLines l := by
  rw [trim, specLines_trimR, specLines_trimL]

/-- The line computation of handleSubmit (src/components/TranscriptInput.tsx:29):
`transcriptList.trim().split('\n').map(line => line.trim()).filter(line => line.length > 0)`,
with each resulting chunk repacked as a string. -/
def submitLines (input : String) : List String :=
  (((splitNl (trim input.data)).map trim).filter (fun l => decide (0 < l.length))).map
    (fun l => String.mk l)

/-- Spec-side counterpart of `submitLines`: the non-empty trimmed lines of the
raw input (no whole-input pre-trim). -/
def specLinesStr (input : String) : List String :=
  (specLines input.data).map (fun l => String.mk l)

theorem submitLines_eq_specLinesStr (input : String) :
    submitLines input = specLinesStr input := by
  unfold submitLines specLinesStr
  rw [show (((splitNl (trim input.data)).map trim).filter
      (fun l => decide (0 < l.length))) = specLines (trim input.data) from rfl]
  rw [specLines_trim]

/-- TranscriptInput.handleSubmit (src/components/TranscriptInput.tsx:22-66):
rejects an input whose trim is empty, rejects when no non-empty trimmed lines
remain, and otherwise returns the list of lines that are bulk inserted. -/
def handleSubmit (input : String) : Except String (List String) :=
  if trim input.data = [] then Except.error "Transcript list cannot be empty."
  else if submitLines input = [] then Except.error "No valid transcript lines found."
  else Except.ok (submitLines input)

/-! ### Data model: the `transcripts` table

A task record (interface `Transcript` in src/app/page.tsx:18-24): identifier
(Supabase UUID string), text content, nullable audio URL, status among
pending/completed, and a creation timestamp used for ordering. -/

inductive Status
  | pending
  | completed
deriving DecidableEq

structure Transcript where
  id : String
  transcript : String
  audio_url : Option String
  status : Status
  created_at : Nat
deriving DecidableEq

/-- Server-assigned identifier for the n-th created row. The backend assigns
fresh unique non-empty UUID strings (out of scope, per the external backend
contract); we model the supply by any injective function into non-empty
strings. -/
def idOf (n : Nat) : String := String.mk (List.replicate (n + 1) 'x')

theorem idOf_injective : Function.Injective idOf := by
  intro a b h
  have hlen : (List.replicate (a + 1) 'x').length = (List.replicate (b + 1) 'x').length := by
    rw [show List.replicate (a + 1) 'x' = List.replicate (b + 1) 'x' from
      congrArg String.data h]
  simpa using hlen

theorem idOf_ne_empty (n : Nat) : idOf n ≠ "" := by
  intro h
  have := congrArg String.data h
  simp [idOf] at this

structure DB where
  rows : List Transcript
  nextId : Nat
deriving DecidableEq

def emptyDB : DB := ⟨[], 0⟩

/-- Supabase bulk insert (src/components/TranscriptInput.tsx:49-51): one batched
insert of `{transcript}` tuples; the server assigns identifier and creation
timestamp, status defaults to pending and audio_url to null. -/
def bulkInsert (db : DB) (texts : List String) : DB :=
  { rows := db.rows ++ ((List.range texts.length).zip texts).map (fun p =>
      { id := idOf (db.nextId + p.1), transcript := p.2, audio_url := none,
        status := Status.pending, created_at := db.nextId + p.1 })
    nextId := db.nextId + texts.length }

/-- The database update of handleRecordingConfirm step 3 (src/app/page.tsx:248-251):
set audio_url and status to completed, in a single write, for rows whose id
matches. -/
def dbUpdate (db : DB) (tid : String) (url : String) : DB :=
  { db with rows := db.rows.map (fun r =>
      if r.id = tid then { r with audio_url := some url, status := Status.completed }
      else r) }

/-- fetchCounts total query (src/app/page.tsx:51-53). -/
def countTotal (db : DB) : Nat := db.rows.length

/-- fetchCounts completed query (src/app/page.tsx:59-62). -/
def countCompleted (db : DB) : Nat :=
  (db.rows.filter (fun r => decide (r.status = Status.completed))).length

/-- fetchNextPendingTranscript (src/app/page.tsx:77-83): the pending row that is
oldest by creation order (order by created_at ascending, limit 1, maybeSingle). -/
def nextPending (db : DB) : Option Transcript :=
  (db.rows.filter (fun r => decide (r.status = Status.pending))).foldl
    (fun acc r =>
      match acc with
      | none => some r
      | some b => if r.created_at < b.created_at then some r else some b)
    none

/-- Insert a row into a list sorted by descending created_at. -/
def insertDesc (r : Transcript) : List Transcript → List Transcript
  | [] => [r]
  | x :: xs => if x.created_at < r.created_at then r :: x :: xs else x :: insertDesc r xs

/-- fetchCompletedTranscripts (src/app/page.tsx:103-107): all completed rows,
ordered by created_at descending (newest first). -/
def completedNewestFirst (db : DB) : List Transcript :=
  (db.rows.filter (fun r => decide (r.status = Status.completed))).foldr insertDesc []

/-! ### The write operations this system ever performs on the table

Per the sources, the only writes are the bulk insert of pending rows
(TranscriptInput.handleSubmit) and the completion update
(handleRecordingConfirm); re-record reuses the same completion update. -/

inductive Op
  | insertTexts (texts : List String)
  | confirm (tid : String) (url : String)

def applyOp (db : DB) : Op → DB
  | Op.insertTexts ts => bulkInsert db ts
  | Op.confirm tid url => dbUpdate db tid url

def applyOps (db : DB) (ops : List Op) : DB := ops.foldl applyOp db

/-- Reachable database states: everything obtainable from the empty table by
the writes of this system. -/
def DBReachable (db : DB) : Prop := ∃ ops : List Op, db = applyOps emptyDB ops

/-! ### Bookkeeping lemmas about the two writes -/

theorem bulkInsert_map_id (db : DB) (texts : List String) :
    (bulkInsert db texts).rows.map Transcript.id
      = db.rows.map Transcript.id
        ++ (List.range texts.length).map (fun i => idOf (db.nextId + i)) := by
  have hfst : ((List.range texts.length).zip texts).map Prod.fst = List.range texts.length :=
    List.map_fst_zip _ _ (by simp)
  simp only [bulkInsert, List.map_append, List.map_map]
  conv_rhs => rw [← hfst, List.map_map]
  exact congrArg (db.rows.map Transcript.id ++ ·) (List.map_congr_left (fun p _ => rfl))

theorem dbUpdate_map_id (db : DB) (tid url : String) :
    (dbUpdate db tid url).rows.map Transcript.id = db.rows.map Transcript.id := by
  simp only [dbUpdate, List.map_map]
  apply List.map_congr_left
  intro r _
  by_cases h : r.id = tid <;> simp [Function.comp, h]

theorem bulkInsert_rows_length (db : DB) (texts : List String) :
    (bulkInsert db texts).rows.length = db.rows.length + texts.length := by
  simp [bulkInsert, List.length_zip]

theorem bulkInsert_new_transcripts (db : DB) (texts : List String) :
    ((bulkInsert db texts).rows.drop db.rows.length).map Transcript.transcript = texts := by
  have hsnd : ((List.range texts.length).zip texts).map Prod.snd = texts :=
    List.map_snd_zip _ _ (by simp)
  simp only [bulkInsert, List.drop_left, List.map_map]
  conv_rhs => rw [← hsnd]
  exact List.map_congr_left (fun p _ => rfl)

theorem bulkInsert_new_status (db : DB) (texts : List String) :
    ∀ r ∈ (bulkInsert db texts).rows.drop db.rows.length, r.status = Status.pending := by
  intro r hr
  simp only [bulkInsert, List.drop_left, List.mem_map] at hr
  obtain ⟨p, _, rfl⟩ := hr
  rfl

theorem dbUpdate_completed (db : DB) (tid url : String) :
    ∀ r ∈ (dbUpdate db tid url).rows, r.id = tid → r.status = Status.completed := by
  intro r hr hid
  simp only [dbUpdate, List.mem_map] at hr
  obtain ⟨r0, _, rfl⟩ := hr
  by_cases h : r0.id = tid
  · simp [h]
  · simp only [if_neg h] at hid ⊢
    exact absurd hid h

/-! ### Status monotonicity machinery (claim C5)

Invariant of reachable tables: every row id is a server-assigned id below the
id counter, and row ids are pairwise distinct. -/

def DBInv (db : DB) : Prop :=
  (∀ r ∈ db.rows, ∃ k, k < db.nextId ∧ r.id = idOf k) ∧
    (db.rows.map Transcript.id).Nodup

/-- Every row with the given id is completed. -/
def CompletedAt (db : DB) (x : String) : Prop :=
  ∀ r ∈ db.rows, r.id = x → r.status = Status.completed

/-- Some row carries the given id. -/
def ExistsId (db : DB) (x : String) : Prop := ∃ r ∈ db.rows, r.id = x

theorem dbInv_empty : DBInv emptyDB := by
  constructor
  · intro r hr
    simp [emptyDB] at hr
  · simp [emptyDB]

theorem dbInv_applyOp {db : DB} (h : DBInv db) (op : Op) : DBInv (applyOp db op) := by
  obtain ⟨hlt, hnd⟩ := h
  cases op with
  | insertTexts ts =>
    constructor
    · intro r hr
      rcases List.mem_append.mp hr with hold | hnew
      · obtain ⟨k, hk, hid⟩ := hlt r hold
        exact ⟨k, by simp only [applyOp, bulkInsert]; omega, hid⟩
      · obtain ⟨p, hp, rfl⟩ := List.mem_map.mp hnew
        have h1 : p.1 ∈ List.range ts.length := (List.of_mem_zip hp).1
        have h2 : p.1 < ts.length := List.mem_range.mp h1
        exact ⟨db.nextId + p.1, by simp only [applyOp, bulkInsert]; omega, rfl⟩
    · rw [show applyOp db (Op.insertTexts ts) = bulkInsert db ts from rfl, bulkInsert_map_id,
        List.nodup_append]
      refine ⟨hnd, ?_, ?_⟩
      · refine List.Nodup.map ?_ (List.nodup_range ts.length)
        intro a b hab
        have := idOf_injective hab
        omega
      · intro x hx1 hx2
        obtain ⟨r, hr, rfl⟩ := List.mem_map.mp hx1
        obtain ⟨i, hi, hIdEq⟩ := List.mem_map.mp hx2
        obtain ⟨k, hk, hid⟩ := hlt r hr
        have : k = db.nextId + i := idOf_injective (by rw [← hid, hIdEq])
        omega
  | confirm tid url =>
    constructor
    · intro r hr
      obtain ⟨r0, hr0, rfl⟩ := List.mem_map.mp hr
      obtain ⟨k, hk, hid⟩ := hlt r0 hr0
      refine ⟨k, hk, ?_⟩
      by_cases h : r0.id = tid
      · simp only [if_pos h]
        exact hid
      · simp only [if_neg h]
        exact hid
    · rw [show applyOp db (Op.confirm tid url) = dbUpdate db tid url from rfl, dbUpdate_map_id]
      exact hnd

theorem step_preserves {db : DB} {x : String}
    (h : DBInv db ∧ ExistsId db x ∧ CompletedAt db x) (op : Op) :
    DBInv (applyOp db op) ∧ ExistsId (applyOp db op) x ∧ CompletedAt (applyOp db op) x := by
  obtain ⟨hInv, hEx, hC⟩ := h
  refine ⟨dbInv_applyOp hInv op, ?_, ?_⟩
  · cases op with
    | insertTexts ts =>
      obtain ⟨r, hr, hid⟩ := hEx
      exact ⟨r, List.mem_append.mpr (Or.inl hr), hid⟩
    | confirm tid url =>
      obtain ⟨r, hr, hid⟩ := hEx
      refine ⟨if r.id = tid then { r with audio_url := some url, status := Status.completed }
        else r, List.mem_map.mpr ⟨r, hr, rfl⟩, ?_⟩
      by_cases h : r.id = tid
      · simp only [if_pos h]
        exact hid
      · simp only [if_neg h]
        exact hid
  · cases op with
    | insertTexts ts =>
      intro r2 h2 hid2
      rcases List.mem_append.mp h2 with hold | hnew
      · exact hC r2 hold hid2
      · exfalso
        obtain ⟨p, hp, rfl⟩ := List.mem_map.mp hnew
        obtain ⟨r, hr, hid⟩ := hEx
        obtain ⟨k, hk, hkid⟩ := hInv.1 r hr
        have : idOf (db.nextId + p.1) = idOf k := by
          rw [← hkid, hid]
          exact hid2
        have := idOf_injective this
        omega
    | confirm tid url =>
      intro r2 h2 hid2
      obtain ⟨r0, hr0, rfl⟩ := List.mem_map.mp h2
      by_cases h : r0.id = tid
      · simp [h]
      · simp only [if_neg h] at hid2 ⊢
        exact hC r0 hr0 hid2

theorem steps_preserve {db : DB} {x : String}
    (h : DBInv db ∧ ExistsId db x ∧ CompletedAt db x) (ops : List Op) :
    DBInv (applyOps db ops) ∧ ExistsId (applyOps db ops) x
      ∧ CompletedAt (applyOps db ops) x := by
  induction ops generalizing db with
  | nil => exact h
  | cons op rest ih => exact ih (step_preserves h op)

theorem dbReachable_inv {db : DB} (h : DBReachable db) : DBInv db := by
  obtain ⟨ops, rfl⟩ := h
  have : ∀ d : DB, DBInv d → DBInv (applyOps d ops) := by
    induction ops with
    | nil => exact fun d hd => hd
    | cons op rest ih => exact fun d hd => ih (applyOp d op) (dbInv_applyOp hd op)
  exact this emptyDB dbInv_empty

/-! ### Local session state of the Home page (src/app/page.tsx)

The client-only state relevant to the claims, plus the backend effects a
handler issues. A recorded audio buffer (browser Blob) is modelled as a byte
list. Handlers return the new local state together with the ordered list of
backend effects they perform; validation failures return before any effect. -/

abbrev Blob := List Nat

inductive Mode
  | record
  | review
deriving DecidableEq

structure HomeState where
  currentTranscript : Option Transcript
  transcriptToRerecord : Option Transcript
  mode : Mode
  isUploading : Bool
  error : Option String
  totalCount : Nat
  completedCount : Nat
  reviewList : List Transcript
deriving DecidableEq

/-- Backend effects a page handler can issue. `storageUpload` carries the
upsert flag (true in the source: re-records overwrite); `updateRow` is the
single database write setting audio_url and status to completed. -/
inductive Effect
  | storageUpload (path : String) (blob : Blob) (upsert : Bool)
  | updateRow (tid : String) (url : String)
  | fetchCompleted
deriving DecidableEq

def Effect.isWrite : Effect → Bool
  | Effect.storageUpload _ _ _ => true
  | Effect.updateRow _ _ => true
  | Effect.fetchCompleted => false

/-- Object storage: a path-indexed store with overwrite-on-upsert semantics. -/
structure Storage where
  objects : List (String × Blob)
deriving DecidableEq

def putObject (st : Storage) (path : String) (b : Blob) : Storage :=
  ⟨(path, b) :: st.objects.filter (fun e => decide (¬ e.1 = path))⟩

def getObject (st : Storage) (path : String) : Option Blob :=
  (st.objects.find? (fun e => decide (e.1 = path))).map Prod.snd

structure World where
  db : DB
  storage : Storage
deriving DecidableEq

def applyEffect (w : World) : Effect → World
  | Effect.storageUpload path b _ => { w with storage := putObject w.storage path b }
  | Effect.updateRow tid url => { w with db := dbUpdate w.db tid url }
  | Effect.fetchCompleted => w

def applyEffects (w : World) (effs : List Effect) : World := effs.foldl applyEffect w

def bucketName : String := "audio"

/-- The storage path of handleRecordingConfirm (src/app/page.tsx:233):
`filePath = bucketName + "/" + transcriptId + ".webm"`, a function of the
task identifier alone. -/
def audioPath (tid : String) : String := bucketName ++ "/" ++ tid ++ ".webm"

/-- getPublicUrl (src/app/page.tsx:243): the backend resolves a stable public
URL from the path, deterministically. -/
def publicUrlOf (path : String) : String :=
  "https://supabase.example/storage/v1/object/public/" ++ path

/-- The task currently active for confirmation (src/app/page.tsx:220):
`transcriptToRerecord ?? currentTranscript`. -/
def activeTarget (s : HomeState) : Option Transcript :=
  match s.transcriptToRerecord with
  | some t => some t
  | none => s.currentTranscript

/-- handleRecordingConfirm (src/app/page.tsx:218-272). The two guards run
before `setIsUploading(true)` and before any backend call; on the success
path the upload, the public-URL resolution and the single row update are
issued in order, the uploading flag is set and finally cleared, and a
re-record additionally clears the target, switches to review mode and
refetches the completed list. Backend calls are modelled as succeeding. -/
def handleRecordingConfirm (s : HomeState) (blob : Option Blob) (tid : String) :
    HomeState × List Effect :=
  let isRerecord := (s.transcriptToRerecord.map Transcript.id) = some tid
  match blob with
  | none => ({ s with error := some "Recording data is missing." }, [])
  | some b =>
    if tid = "" then ({ s with error := some "Recording data is missing." }, [])
    else
      match activeTarget s with
      | none => ({ s with error := some "Transcript ID mismatch." }, [])
      | some t =>
        if t.id = tid then
          let url := publicUrlOf (audioPath tid)
          let s1 := { s with isUploading := false, error := none }
          if isRerecord then
            ({ s1 with transcriptToRerecord := none, mode := Mode.review },
              [Effect.storageUpload (audioPath tid) b true, Effect.updateRow tid url,
                Effect.fetchCompleted])
          else
            (s1, [Effect.storageUpload (audioPath tid) b true, Effect.updateRow tid url])
        else ({ s with error := some "Transcript ID mismatch." }, [])

/-- switchToReviewMode (src/app/page.tsx:291-296), also the handler of the
Cancel Re-record button (src/app/page.tsx:393): switch to review mode, clear
the re-record target and the error, and fetch the completed list (a read). -/
def switchToReviewMode (s : HomeState) (db : DB) : HomeState × List Effect :=
  ({ s with
      mode := Mode.review
      transcriptToRerecord := none
      error := none
      reviewList := completedNewestFirst db }, [Effect.fetchCompleted])

/-! ### Realtime reconciliation (src/app/page.tsx:160-198) -/

inductive EventType
  | insert
  | update
  | delete
deriving DecidableEq

/-- A postgres_changes payload: event type plus the new and old record
snapshots (`payload.new` is absent for DELETE events, `payload.old` for
INSERT events). -/
structure Payload where
  eventType : EventType
  newRec : Option Transcript
  oldRec : Option Transcript
deriving DecidableEq

/-- The realtime subscription handler (src/app/page.tsx:163-189), one
event-loop turn: on every change notification it refetches both counts and
the next pending transcript (fetchNextPendingTranscript clears the error),
refetches the completed list when the current mode is review, and, when the
event is an UPDATE whose new record id equals the current re-record target
id (JS strict equality on possibly-undefined ids), clears the target and
switches back to review mode. -/
def realtimeHandler (s : HomeState) (db : DB) (p : Payload) : HomeState :=
  let s1 := { s with
    totalCount := countTotal db
    completedCount := countCompleted db
    currentTranscript := nextPending db
    error := none }
  let s2 := if s.mode = Mode.review then { s1 with reviewList := completedNewestFirst db }
    else s1
  if p.eventType = EventType.update ∧
      (p.newRec.map Transcript.id) = (s.transcriptToRerecord.map Transcript.id) then
    { s2 with transcriptToRerecord := none, mode := Mode.review }
  else s2

/-! ### Recorder session (src/components/Recorder.tsx)

A labelled transition system over the recorder's state. Capture streams are
identified by the order in which `getUserMedia` grants them: `nextStream`
counts the streams opened so far, `openStreams` lists the identifiers whose
tracks have not been stopped yet, and `recStream` is the stream owned by a
MediaRecorder that is not inactive. Each event models one handler of the
source together with its awaited continuations, run atomically in the
single-threaded event loop (the `onstop`/`onerror` callbacks that stop the
stream tracks are inlined into the step that triggers them). The `allowed`
parameter of an event is the environment: whether the browser grants
microphone access at that moment. -/

structure RecorderState where
  isRecording : Bool
  audioBlob : Option Blob
  permissionGranted : Option Bool
  recStream : Option Nat
  openStreams : List Nat
  nextStream : Nat
  isUploading : Bool
deriving DecidableEq

/-- Stop the tracks of the given stream, releasing it. -/
def stopTracks (l : List Nat) : Option Nat → List Nat
  | some sid => l.filter (fun x => decide (¬ x = sid))
  | none => l

/-- resetState (src/components/Recorder.tsx:67-80): clear recording flag and
buffer, stop the MediaRecorder if it is not inactive (its onstop callback
stops the stream tracks), and drop the recorder reference. -/
def resetState (s : RecorderState) : RecorderState :=
  { s with
    isRecording := false
    audioBlob := none
    openStreams := stopTracks s.openStreams s.recStream
    recStream := none }

/-- getMicPermission (src/components/Recorder.tsx:47-65): request a probe
stream; on success record the grant and stop the probe tracks immediately (in
the same continuation, so the probe opens and closes within the step); on
failure record the denial. -/
def getMicPermission (s : RecorderState) (allowed : Bool) : RecorderState :=
  if allowed then { s with permissionGranted := some true, nextStream := s.nextStream + 1 }
  else { s with permissionGranted := some false }

/-- Open a fresh capture stream and hand it to a new recording MediaRecorder
(src/components/Recorder.tsx:106-133, success path of the try block). -/
def acquireStream (s : RecorderState) : RecorderState :=
  { s with
    isRecording := true
    recStream := some s.nextStream
    openStreams := s.nextStream :: s.openStreams
    nextStream := s.nextStream + 1 }

/-- startRecording (src/components/Recorder.tsx:82-139). The record button is
disabled while an upload is in progress (line 202), so the event is a no-op
then. Otherwise the source first handles the permission pre-check block
(lines 83-100): when the captured `permissionGranted` is not `some true` it
runs getMicPermission, and returns early when the captured (stale closure)
value was `some false`; when the captured value was `null` it falls through.
Then resetState runs, and the try block either opens a fresh capture stream
and starts recording (browser grants access) or throws, with the catch
branch running resetState again. The three branches below are, in order:
captured value false (probe, early return); captured value true (no probe);
captured value null (probe, fall through). -/
def startRecording (s : RecorderState) (allowed : Bool) : RecorderState :=
  if s.isUploading then s
  else if s.permissionGranted = some false then getMicPermission s allowed
  else if s.permissionGranted = some true then
    (if allowed then acquireStream (resetState s) else resetState (resetState s))
  else
    (if allowed then acquireStream (resetState (getMicPermission s allowed))
     else resetState (resetState (getMicPermission s allowed)))

/-- stopRecording (src/components/Recorder.tsx:141-147) with the onstop
callback (lines 116-123) inlined: build the blob from the chunks, stop the
stream tracks; the MediaRecorder becomes inactive. -/
def stopRecording (s : RecorderState) (data : Blob) : RecorderState :=
  if s.isRecording then
    { s with
      isRecording := false
      audioBlob := some data
      openStreams := stopTracks s.openStreams s.recStream
      recStream := none }
  else s

/-- The onerror callback (src/components/Recorder.tsx:125-130): resetState and
stop the stream tracks. -/
def recorderError (s : RecorderState) : RecorderState := resetState s

inductive REvent
  /-- The mount/target-change effect (src/components/Recorder.tsx:31-36):
  getMicPermission then resetState. -/
  | targetChange (allowed : Bool)
  /-- The Retry Permission button (src/components/Recorder.tsx:171). -/
  | retryPermission (allowed : Bool)
  /-- The record button. -/
  | clickRecord (allowed : Bool)
  /-- The stop button, carrying the audio captured by the recorder. -/
  | clickStop (data : Blob)
  /-- The Redo button (disabled while uploading). -/
  | clickRedo
  /-- A MediaRecorder error event. -/
  | recError
  /-- The isUploading prop set by the parent page. -/
  | setUploading (b : Bool)

def stepR (s : RecorderState) : REvent → RecorderState
  | REvent.targetChange a => resetState (getMicPermission s a)
  | REvent.retryPermission a => getMicPermission s a
  | REvent.clickRecord a => startRecording s a
  | REvent.clickStop d => stopRecording s d
  | REvent.clickRedo => if s.isUploading then s else resetState s
  | REvent.recError => recorderError s
  | REvent.setUploading b => { s with isUploading := b }

def initRecorder : RecorderState :=
  { isRecording := false
    audioBlob := none
    permissionGranted := none
    recStream := none
    openStreams := []
    nextStream := 0
    isUploading := false }

/-- States reachable across the lifetime of a recording session. -/
def RecReachable (s : RecorderState) : Prop :=
  Relation.ReflTransGen (fun a b => ∃ e : REvent, b = stepR a e) initRecorder s

/-- The stream-ownership invariant: an open capture stream is always the one
owned by the active MediaRecorder, and there is at most one. -/
def StreamInv (s : RecorderState) : Prop :=
  match s.recStream with
  | none => s.openStreams = []
  | some sid => s.openStreams = [sid]

theorem streamInv_resetState {s : RecorderState} (h : StreamInv s) :
    StreamInv (resetState s) := by
  unfold StreamInv resetState stopTracks at *
  cases hr : s.recStream with
  | none => simpa [hr] using h
  | some sid =>
    rw [hr] at h
    simp [hr, h]

theorem streamInv_getMicPermission {s : RecorderState} (h : StreamInv s) (a : Bool) :
    StreamInv (getMicPermission s a) := by
  unfold StreamInv getMicPermission at *
  cases a <;> simpa using h

theorem resetState_openStreams_nil {s : RecorderState} (h : StreamInv s) :
    (resetState s).openStreams = [] := by
  have h2 := streamInv_resetState h
  unfold StreamInv at h2
  simpa [resetState] using h2

theorem streamInv_acquireStream {s : RecorderState} (h : s.openStreams = []) :
    StreamInv (acquireStream s) := by
  unfold StreamInv acquireStream
  simp [h]

theorem streamInv_step {s : RecorderState} (h : StreamInv s) (e : REvent) :
    StreamInv (stepR s e) := by
  cases e with
  | targetChange a => exact streamInv_resetState (streamInv_getMicPermission h a)
  | retryPermission a => exact streamInv_getMicPermission h a
  | clickRecord a =>
    show StreamInv (startRecording s a)
    unfold startRecording
    by_cases hu : s.isUploading = true
    · rw [if_pos hu]
      exact h
    · rw [if_neg hu]
      by_cases hf : s.permissionGranted = some false
      · rw [if_pos hf]
        exact streamInv_getMicPermission h a
      · rw [if_neg hf]
        by_cases ht : s.permissionGranted = some true
        · rw [if_pos ht]
          by_cases ha : a = true
          · rw [if_pos ha]
            exact streamInv_acquireStream (resetState_openStreams_nil h)
          · rw [if_neg ha]
            exact streamInv_resetState (streamInv_resetState h)
        · rw [if_neg ht]
          by_cases ha : a = true
          · rw [if_pos ha]
            exact streamInv_acquireStream
              (resetState_openStreams_nil (streamInv_getMicPermission h a))
          · rw [if_neg ha]
            exact streamInv_resetState (streamInv_resetState (streamInv_getMicPermission h a))
  | clickStop d =>
    show StreamInv (stopRecording s d)
    unfold stopRecording
    by_cases hr : s.isRecording
    · simp only [if_pos hr]
      revert h
      unfold StreamInv stopTracks
      cases hrec : s.recStream with
      | none => intro h; simpa using h
      | some sid => intro h; simp [h]
    · simpa [hr] using h
  | clickRedo =>
    by_cases hu : s.isUploading
    · simpa [stepR, hu] using h
    · simpa [stepR, hu] using streamInv_resetState h
  | recError => exact streamInv_resetState h
  | setUploading b =>
    revert h
    unfold StreamInv stepR
    cases s.recStream <;> exact fun h => h

theorem recReachable_inv {s : RecorderState} (h : RecReachable s) : StreamInv s := by
  induction h with
  | refl => rfl
  | tail _ hstep ih =>
    obtain ⟨e, rfl⟩ := hstep
    exact streamInv_step ih e

/-! ### The claims -/

/-- C1: for every input the intake flow accepts, the tasks created by the
bulk insert are exactly the non-empty trimmed lines of the input (blank and
whitespace-only lines excluded), in number and in text. -/
theorem intake_creates_nonempty_trimmed_lines (input : String) (lines : List String)
    (db : DB) (h : handleSubmit input = Except.ok lines) :
    lines = specLinesStr input
    ∧ (bulkInsert db lines).rows.length = db.rows.length + (specLinesStr input).length
    ∧ ((bulkInsert db lines).rows.drop db.rows.length).map Transcript.transcript
        = specLinesStr input := by
  have hl : lines = submitLines input := by
    unfold handleSubmit at h
    by_cases h1 : trim input.data = []
    · rw [if_pos h1] at h
      exact absurd h (by simp)
    · rw [if_neg h1] at h
      by_cases h2 : submitLines input = []
      · rw [if_pos h2] at h
        exact absurd h (by simp)
      · rw [if_neg h2] at h
        simpa using h.symm
  have heq : lines = specLinesStr input := hl.trans (submitLines_eq_specLinesStr input)
  refine ⟨heq, ?_, ?_⟩
  · rw [bulkInsert_rows_length, heq]
  · rw [bulkInsert_new_transcripts, heq]

/-- Witness for C1 at the concrete input of the claim: the input with two
blank or whitespace-only lines yields exactly the three tasks a, b, c. -/
theorem intake_creates_nonempty_trimmed_lines_witness :
    handleSubmit "a\n\nb\n  \nc" = Except.ok ["a", "b", "c"]
    ∧ ["a", "b", "c"] = specLinesStr "a\n\nb\n  \nc"
    ∧ (bulkInsert emptyDB ["a", "b", "c"]).rows.length
        = emptyDB.rows.length + (specLinesStr "a\n\nb\n  \nc").length
    ∧ ((bulkInsert emptyDB ["a", "b", "c"]).rows.drop emptyDB.rows.length).map
        Transcript.transcript = specLinesStr "a\n\nb\n  \nc" := by
  have h := intake_creates_nonempty_trimmed_lines "a\n\nb\n  \nc" ["a", "b", "c"] emptyDB rfl
  exact ⟨rfl, h.1, h.2.1, h.2.2⟩

/-- C5: a task's status is monotonic. Starting from any table reachable by
the writes of this system, if a row is completed, then after any further
sequence of system writes every row with that identifier is still completed;
the only status writes are the insert default pending and updates that set
completed. -/
theorem status_monotonic (db : DB) (hdb : DBReachable db) (r : Transcript)
    (hr : r ∈ db.rows) (hc : r.status = Status.completed) (ops : List Op) :
    ∀ r2 ∈ (applyOps db ops).rows, r2.id = r.id → r2.status = Status.completed := by
  have hInv := dbReachable_inv hdb
  have hEx : ExistsId db r.id := ⟨r, hr, rfl⟩
  have hC : CompletedAt db r.id := by
    intro r2 h2 hid
    have he : r2 = r := List.inj_on_of_nodup_map hInv.2 h2 hr hid
    rw [he]
    exact hc
  exact (steps_preserve ⟨hInv, hEx, hC⟩ ops).2.2

def c5db : DB := applyOps emptyDB [Op.insertTexts ["hello"], Op.confirm (idOf 0) "u"]

def c5row : Transcript :=
  { id := idOf 0, transcript := "hello", audio_url := some "u"
    status := Status.completed, created_at := 0 }

def c5ops : List Op := [Op.insertTexts ["more"], Op.confirm (idOf 0) "u2"]

def c5row2 : Transcript :=
  { id := idOf 0, transcript := "hello", audio_url := some "u2"
    status := Status.completed, created_at := 0 }

/-- Witness for C5: a completed row stays completed across a further insert
and a re-record update. -/
theorem status_monotonic_witness :
    c5row2 ∈ (applyOps c5db c5ops).rows ∧ c5row2.status = Status.completed :=
  ⟨by decide,
    status_monotonic c5db ⟨[Op.insertTexts ["hello"], Op.confirm (idOf 0) "u"], rfl⟩ c5row
      (by decide) (by decide) c5ops c5row2 (by decide) (by decide)⟩

/-- C2: on a successful confirmation for task identifier tid, the writes are
exactly one object-storage upload at the path derived from tid alone (with
upsert, i.e. overwrite, semantics) followed by one row update carrying the
resolved public URL and status completed; applying the issued effects to any
backend leaves every row with that identifier completed and stores the
uploaded buffer at that path — so a re-record writes the identical path and
the status remains completed. -/
theorem confirm_success_writes (s : HomeState) (b : Blob) (t : Transcript) (tid : String)
    (hne : ¬ tid = "") (ht : activeTarget s = some t) (hid : t.id = tid) :
    (handleRecordingConfirm s (some b) tid).2.filter Effect.isWrite
      = [Effect.storageUpload (audioPath tid) b true,
         Effect.updateRow tid (publicUrlOf (audioPath tid))]
    ∧ (∀ w : World, ∀ r ∈ (applyEffects w (handleRecordingConfirm s (some b) tid).2).db.rows,
        r.id = tid → r.status = Status.completed)
    ∧ (∀ w : World,
        getObject (applyEffects w (handleRecordingConfirm s (some b) tid).2).storage
          (audioPath tid) = some b) := by
  have hgo : ∀ (st : Storage), getObject (putObject st (audioPath tid) b) (audioPath tid)
      = some b := by
    intro st
    simp [getObject, putObject]
  by_cases hr : (s.transcriptToRerecord.map Transcript.id) = some tid
  · simp only [handleRecordingConfirm, if_neg hne, ht, if_pos hid, if_pos hr]
    refine ⟨rfl, ?_, ?_⟩
    · intro w r hmem hrid
      refine dbUpdate_completed w.db tid (publicUrlOf (audioPath tid)) r ?_ hrid
      simpa [applyEffects, applyEffect] using hmem
    · intro w
      simpa [applyEffects, applyEffect] using hgo w.storage
  · simp only [handleRecordingConfirm, if_neg hne, ht, if_pos hid, if_neg hr]
    refine ⟨rfl, ?_, ?_⟩
    · intro w r hmem hrid
      refine dbUpdate_completed w.db tid (publicUrlOf (audioPath tid)) r ?_ hrid
      simpa [applyEffects, applyEffect] using hmem
    · intro w
      simpa [applyEffects, applyEffect] using hgo w.storage

def c2task : Transcript :=
  { id := "t1", transcript := "hello", audio_url := none
    status := Status.pending, created_at := 0 }

def c2state : HomeState :=
  { currentTranscript := some c2task, transcriptToRerecord := none, mode := Mode.record
    isUploading := false, error := none, totalCount := 1, completedCount := 0
    reviewList := [] }

def c2world : World := { db := ⟨[c2task], 1⟩, storage := ⟨[]⟩ }

def c2effs : List Effect := (handleRecordingConfirm c2state (some [7]) "t1").2

def c2row : Transcript :=
  { id := "t1", transcript := "hello", audio_url := some (publicUrlOf (audioPath "t1"))
    status := Status.completed, created_at := 0 }

/-- Witness for C2 at a concrete pending task: the writes, the completed row
after applying them, and the stored object at the derived path. -/
theorem confirm_success_writes_witness :
    c2effs.filter Effect.isWrite
      = [Effect.storageUpload (audioPath "t1") [7] true,
         Effect.updateRow "t1" (publicUrlOf (audioPath "t1"))]
    ∧ c2row ∈ (applyEffects c2world c2effs).db.rows
    ∧ c2row.status = Status.completed
    ∧ getObject (applyEffects c2world c2effs).storage (audioPath "t1") = some [7] := by
  have h := confirm_success_writes c2state [7] c2task "t1" (by decide) rfl rfl
  exact ⟨h.1, by decide, h.2.1 c2world c2row (by decide) rfl, h.2.2 c2world⟩

/-- C3: confirming a recording with a non-null buffer but a task identifier
different from the session's active task (the re-record target if set,
otherwise the current pending task) is rejected with a validation error: an
error message is set, no effect is issued, the uploading flag is untouched,
and any backend state is left unchanged. -/
theorem confirm_mismatch_rejected (s : HomeState) (b : Blob) (t : Transcript) (tid : String)
    (ht : activeTarget s = some t) (hne : ¬ t.id = tid) :
    ((handleRecordingConfirm s (some b) tid).1.error).isSome = true
    ∧ (handleRecordingConfirm s (some b) tid).2 = []
    ∧ (handleRecordingConfirm s (some b) tid).1.isUploading = s.isUploading
    ∧ ∀ w : World, applyEffects w (handleRecordingConfirm s (some b) tid).2 = w := by
  by_cases h0 : tid = ""
  · simp [handleRecordingConfirm, h0, applyEffects]
  · simp only [handleRecordingConfirm, if_neg h0, ht, if_neg hne]
    simp [applyEffects]

def c3task : Transcript :=
  { id := "t1", transcript := "hello", audio_url := none
    status := Status.pending, created_at := 0 }

def c3state : HomeState :=
  { currentTranscript := some c3task, transcriptToRerecord := none, mode := Mode.record
    isUploading := false, error := none, totalCount := 1, completedCount := 0
    reviewList := [] }

def c3world : World := { db := ⟨[c3task], 1⟩, storage := ⟨[]⟩ }

/-- Witness for C3: confirming with a buffer against identifier t2 while the
active task is t1 sets an error, issues no effect, and leaves a backend
unchanged. -/
theorem confirm_mismatch_rejected_witness :
    ((handleRecordingConfirm c3state (some [7]) "t2").1.error).isSome = true
    ∧ (handleRecordingConfirm c3state (some [7]) "t2").2 = []
    ∧ applyEffects c3world (handleRecordingConfirm c3state (some [7]) "t2").2 = c3world := by
  have h := confirm_mismatch_rejected c3state [7] c3task "t2" rfl (by decide)
  exact ⟨h.1, h.2.1, h.2.2.2 c3world⟩

/-- C10: invoking the confirmation with a null buffer or an empty task
identifier sets the error message Recording data is missing., returns before
any storage or database effect, and does not touch the uploading flag. -/
theorem confirm_missing_data (s : HomeState) (blob : Option Blob) (tid : String)
    (h : blob = none ∨ tid = "") :
    (handleRecordingConfirm s blob tid).1.error = some "Recording data is missing."
    ∧ (handleRecordingConfirm s blob tid).2 = []
    ∧ (handleRecordingConfirm s blob tid).1.isUploading = s.isUploading
    ∧ ∀ w : World, applyEffects w (handleRecordingConfirm s blob tid).2 = w := by
  rcases h with h | h
  · subst h
    simp [handleRecordingConfirm, applyEffects]
  · subst h
    cases blob with
    | none => simp [handleRecordingConfirm, applyEffects]
    | some b => simp [handleRecordingConfirm, applyEffects]

def c10state : HomeState :=
  { currentTranscript := some c2task, transcriptToRerecord := none, mode := Mode.record
    isUploading := false, error := none, totalCount := 1, completedCount := 0
    reviewList := [] }

/-- Witness for C10: a null buffer is rejected with the missing-data message
and no effects. -/
theorem confirm_missing_data_witness :
    (handleRecordingConfirm c10state none "t1").1.error = some "Recording data is missing."
    ∧ (handleRecordingConfirm c10state none "t1").2 = []
    ∧ (handleRecordingConfirm c10state none "t1").1.isUploading = c10state.isUploading := by
  have h := confirm_missing_data c10state none "t1" (Or.inl rfl)
  exact ⟨h.1, h.2.1, h.2.2.1⟩

/-- C9: canceling a re-record (the Cancel Re-record button invokes
switchToReviewMode) returns the session to the review list, clears the
target, and performs no backend write: the only effect is the completed-list
read, and any backend state — in particular the task's stored status and
audio reference — is unchanged. -/
theorem cancel_rerecord_no_write (s : HomeState) (db : DB) :
    (switchToReviewMode s db).1.mode = Mode.review
    ∧ (switchToReviewMode s db).1.transcriptToRerecord = none
    ∧ (switchToReviewMode s db).2.filter Effect.isWrite = []
    ∧ ∀ w : World, applyEffects w (switchToReviewMode s db).2 = w :=
  ⟨rfl, rfl, rfl, fun _ => rfl⟩

/-- C6: every realtime notification, whatever the changed record and event
type, refreshes in that one handler turn the total count, the completed
count, and the next pending task (oldest by creation order) from the
backend; a session whose mode is review additionally gets the completed
review list (newest first) refreshed. -/
theorem realtime_refetch (s : HomeState) (db : DB) (p : Payload) :
    (realtimeHandler s db p).totalCount = countTotal db
    ∧ (realtimeHandler s db p).completedCount = countCompleted db
    ∧ (realtimeHandler s db p).currentTranscript = nextPending db
    ∧ (realtimeHandler { s with mode := Mode.review } db p).reviewList
        = completedNewestFirst db := by
  unfold realtimeHandler
  by_cases h1 : s.mode = Mode.review
  · by_cases h2 : p.eventType = EventType.update ∧
        (p.newRec.map Transcript.id) = (s.transcriptToRerecord.map Transcript.id)
    · simp [h1, h2]
    · simp [h1, h2]
  · by_cases h2 : p.eventType = EventType.update ∧
        (p.newRec.map Transcript.id) = (s.transcriptToRerecord.map Transcript.id)
    · simp [h1, h2]
    · simp [h1, h2]

def c7task : Transcript :=
  { id := "t1", transcript := "hello", audio_url := some "u"
    status := Status.completed, created_at := 0 }

def c7state : HomeState :=
  { currentTranscript := none, transcriptToRerecord := some c7task, mode := Mode.record
    isUploading := false, error := none, totalCount := 1, completedCount := 1
    reviewList := [] }

def c7delete : Payload :=
  { eventType := EventType.delete, newRec := none, oldRec := some c7task }

/-- C7 counterexample: a DELETE notification whose changed (old) record
identifier equals the current re-record target identifier does not clear the
target and does not switch the session to review mode — the handler only
reacts to UPDATE events, refuting the claim as stated for notifications of
other event types. -/
theorem realtime_rerecord_counterexample :
    ¬ ((realtimeHandler c7state ⟨[c7task], 1⟩ c7delete).transcriptToRerecord = none
       ∧ (realtimeHandler c7state ⟨[c7task], 1⟩ c7delete).mode = Mode.review) := by
  decide

/-- C7 amended: for every realtime UPDATE notification whose new record
identifier equals the identifier currently targeted for re-recording, the
handler clears the re-record target and switches the session back to review
mode (notifications of other event types leave the target unchanged). -/
theorem realtime_rerecord_clear (s : HomeState) (db : DB) (p : Payload) (t r : Transcript)
    (hT : s.transcriptToRerecord = some t) (hE : p.eventType = EventType.update)
    (hN : p.newRec = some r) (hid : r.id = t.id) :
    (realtimeHandler s db p).transcriptToRerecord = none
    ∧ (realtimeHandler s db p).mode = Mode.review := by
  have hc : p.eventType = EventType.update ∧
      (p.newRec.map Transcript.id) = (s.transcriptToRerecord.map Transcript.id) := by
    refine ⟨hE, ?_⟩
    rw [hN, hT]
    simpa using hid
  by_cases h1 : s.mode = Mode.review <;> simp [realtimeHandler, hc, h1]

def c7update : Payload :=
  { eventType := EventType.update, newRec := some c7task, oldRec := some c7task }

/-- Witness for the amended C7: an UPDATE on the targeted record clears the
target and switches to review. -/
theorem realtime_rerecord_clear_witness :
    (realtimeHandler c7state ⟨[c7task], 1⟩ c7update).transcriptToRerecord = none
    ∧ (realtimeHandler c7state ⟨[c7task], 1⟩ c7update).mode = Mode.review :=
  realtime_rerecord_clear c7state ⟨[c7task], 1⟩ c7update c7task c7task rfl rfl rfl rfl

/-- C4: at most one microphone capture stream is open at any instant across a
recording session: in every reachable recorder state the open streams number
at most one, each transition releasing the previously open stream's tracks
before a new stream is acquired (handlers, with their awaited continuations,
are the atomic turns of the single-threaded event loop). -/
theorem recorder_at_most_one_stream (s : RecorderState) (h : RecReachable s) :
    s.openStreams.length ≤ 1 := by
  have hInv := recReachable_inv h
  unfold StreamInv at hInv
  cases hr : s.recStream with
  | none =>
    rw [hr] at hInv
    simp [hInv]
  | some sid =>
    rw [hr] at hInv
    simp [hInv]

/-- Witness for C4: after granting permission and starting a recording, the
reachable state still has at most one open stream. -/
theorem recorder_at_most_one_stream_witness :
    (stepR (stepR initRecorder (REvent.targetChange true))
      (REvent.clickRecord true)).openStreams.length ≤ 1 :=
  recorder_at_most_one_stream _
    (Relation.ReflTransGen.tail
      (Relation.ReflTransGen.tail Relation.ReflTransGen.refl ⟨REvent.targetChange true, rfl⟩)
      ⟨REvent.clickRecord true, rfl⟩)

theorem stopTracks_length_le (l : List Nat) (o : Option Nat) :
    (stopTracks l o).length ≤ l.length := by
  cases o with
  | none => exact Nat.le_refl _
  | some sid => exact List.length_filter_le _ l

/-- C8: when the browser does not grant microphone access, or an upload is in
progress (the record button is disabled then), an attempt to start recording
from a non-recording state is rejected as a no-op: recording state is not
entered, no capture stream is acquired (the stream grant counter is
unchanged), and no stream becomes open. -/
theorem start_rejected_no_stream (s : RecorderState) (a : Bool)
    (h : a = false ∨ s.isUploading = true) (hr : s.isRecording = false) :
    (stepR s (REvent.clickRecord a)).isRecording = false
    ∧ (stepR s (REvent.clickRecord a)).nextStream = s.nextStream
    ∧ (stepR s (REvent.clickRecord a)).openStreams.length ≤ s.openStreams.length := by
  show (startRecording s a).isRecording = false
    ∧ (startRecording s a).nextStream = s.nextStream
    ∧ (startRecording s a).openStreams.length ≤ s.openStreams.length
  by_cases hu : s.isUploading = true
  · unfold startRecording
    rw [if_pos hu]
    exact ⟨hr, rfl, Nat.le_refl _⟩
  · rcases h with h | h
    · subst h
      unfold startRecording
      rw [if_neg hu]
      by_cases hf : s.permissionGranted = some false
      · rw [if_pos hf]
        simp [getMicPermission, hr]
      · rw [if_neg hf]
        by_cases ht : s.permissionGranted = some true
        · rw [if_pos ht]
          simp only [if_neg (by simp : ¬ (false = true))]
          refine ⟨rfl, rfl, ?_⟩
          simp only [resetState]
          exact Nat.le_trans (stopTracks_length_le _ _)
            (Nat.le_trans (Nat.le_of_eq rfl) (stopTracks_length_le _ _))
        · rw [if_neg ht]
          simp only [if_neg (by simp : ¬ (false = true))]
          refine ⟨rfl, rfl, ?_⟩
          simp only [resetState, getMicPermission]
          simp only [if_neg (by simp : ¬ (false = true))]
          exact Nat.le_trans (stopTracks_length_le _ _)
            (Nat.le_trans (Nat.le_of_eq rfl) (stopTracks_length_le _ _))
    · exact absurd h hu

/-- Witness for C8: from the initial state, clicking record while the browser
denies access enters no recording state and opens no stream. -/
theorem start_rejected_no_stream_witness :
    (stepR initRecorder (REvent.clickRecord false)).isRecording = false
    ∧ (stepR initRecorder (REvent.clickRecord false)).nextStream = initRecorder.nextStream
    ∧ (stepR initRecorder (REvent.clickRecord false)).openStreams.length
        ≤ initRecorder.openStreams.length :=
  start_rejected_no_stream initRecorder false (Or.inl rfl) rfl

end Telugu
